import Mathlib

/-!
Verification of the VITO emission-preprocessing pipeline (`vito.py`).

The numerical core of the script is embedded shallowly:
* machine floats become exact rationals (`ℚ`) — the pipeline's arithmetic is
  plain field arithmetic, so the algebraic claims are settled exactly;
* the spherical-cap cell-area formula, which uses `sin` and `π`, is embedded
  over `ℝ`;
* `numpy` masked cells ("missing value" sentinels turned into NaN by
  `ds.where`) become `Option ℚ`, with `none` for an absent cell; masked
  arithmetic propagates `none`;
* datasets keyed by variable name become functions `String → List ℚ`;
* the hour axis of a field becomes a `List ℚ` (one entry per hour).

All per-cell operations are embedded cellwise: the source applies the same
scalar expression to every cell of a 2-D array, so one cell captures it.
-/

namespace vito

/-- The two species actively mapped by `read_vito` (`var_dict`): `E_NO` and
`E_SO2`.  The `E_PM25` entry is commented out in the source. -/
inductive Species where
  | E_NO
  | E_SO2
deriving DecidableEq

/-- The five emission sectors of the inventory (`types` in `read_vito`). -/
inductive Sector where
  | Industry
  | Energy
  | Traffic
  | Residential
  | Fires
deriving DecidableEq

/-- Molecular weights from `var_dict` in `read_vito`: `E_NO ↦ 14`, `E_SO2 ↦ 64`. -/
def var_dict : Species → ℚ
  | .E_NO => 14
  | .E_SO2 => 64

/-- The sector iteration order of the hourly-factor table in `get_ds`
(`kind = ['Fires', 'Industry', 'Energy', 'Residential', 'Traffic']`). -/
def kind : List Sector :=
  [.Fires, .Industry, .Energy, .Residential, .Traffic]

/-- The masking step `ds.where(ds != MissingValue)` in `get_ds`: a cell equal to the declared
missing-value sentinel becomes absent (`none`); any other value is kept. -/
def maskMissing (sentinel v : ℚ) : Option ℚ :=
  if v = sentinel then none else some v

/-- The unit conversion applied in `get_ds` for `E_NO` and `E_SO2`
(`ds*1e9/(self.emi_area/1e6)/(hours*var_dict[name])`, with
`hours = days*24`). -/
def convert_units (name : Species) (area : ℚ) (days : ℕ) (v : ℚ) : ℚ :=
  v * 10 ^ 9 / (area / 10 ^ 6) / ((days * 24 : ℚ) * var_dict name)

/-- The unit conversion lifted to a possibly-absent cell: masked numpy
arithmetic maps an absent cell to an absent cell. -/
def convertCell (name : Species) (area : ℚ) (days : ℕ) : Option ℚ → Option ℚ :=
  Option.map (convert_units name area days)

/-- Masked addition: if either operand is absent, the sum is absent. -/
def oadd : Option ℚ → Option ℚ → Option ℚ
  | some x, some y => some (x + y)
  | _, _ => none

/-- Masked multiplication by a (present) hourly factor. -/
def omul (a : Option ℚ) (c : ℚ) : Option ℚ :=
  Option.map (· * c) a

/-- The hourly disaggregation loop of `get_ds`: starting from a zero field,
for each sector `k` of `kind`, add (that sector's converted monthly field) ×
(the hourly factor `table[k][h]`).  Embedded per cell and per hour `h`. -/
def disaggregate (monthly : Sector → Option ℚ) (table : Sector → ℕ → ℚ)
    (h : ℕ) : Option ℚ :=
  kind.foldl (fun acc k => oadd acc (omul (monthly k) (table k h))) (some 0)

/-- The per-cell pipeline of `get_ds` for one hour: mask the sentinel, apply
the unit conversion, then disaggregate across the five sectors. -/
def cellPipeline (sentinel : ℚ) (name : Species) (area : ℚ) (days : ℕ)
    (raw : Sector → ℚ) (table : Sector → ℕ → ℚ) (h : ℕ) : Option ℚ :=
  disaggregate (fun k => convertCell name area days (maskMissing sentinel (raw k))) table h

/-- Plain (unmasked) sum of the five sector fields at one cell. -/
def sector_total (m : Sector → ℚ) : ℚ :=
  (kind.map m).sum

lemma oadd_some_some (x y : ℚ) : oadd (some x) (some y) = some (x + y) := rfl

lemma oadd_none_right (a : Option ℚ) : oadd a none = none := by
  cases a <;> rfl

lemma oadd_none_left (b : Option ℚ) : oadd none b = none := rfl

lemma omul_some (x c : ℚ) : omul (some x) c = some (x * c) := rfl

lemma omul_none (c : ℚ) : omul none c = none := rfl

lemma convertCell_some (name : Species) (area : ℚ) (days : ℕ) (v : ℚ) :
    convertCell name area days (some v) = some (convert_units name area days v) := rfl

lemma convertCell_none (name : Species) (area : ℚ) (days : ℕ) :
    convertCell name area days none = none := rfl

end vito

/-- C1: for NOx and SO2 the unit conversion multiplies a present cell by 1e9,
divides by the cell area in km² (m² area / 1e6) and by (hours in the month ×
molecular weight), with MW 14 for NO and 64 for SO2; and in the end-to-end
scenario (area 1e6 m², value 10 in a single sector, identity diurnal table,
30-day month) every one of the 24 hourly NOx values equals
10 × 1e9 / (1e6/1e6) / (720 × 14). -/
theorem vito.convert_units_spec :
    (∀ (v area : ℚ) (days : ℕ),
      vito.convert_units .E_NO area days v
        = v * 10 ^ 9 / (area / 10 ^ 6) / ((days * 24 : ℚ) * 14))
    ∧ (∀ (v area : ℚ) (days : ℕ),
      vito.convert_units .E_SO2 area days v
        = v * 10 ^ 9 / (area / 10 ^ 6) / ((days * 24 : ℚ) * 64))
    ∧ (∀ h : ℕ,
      vito.cellPipeline (-999) .E_NO (10 ^ 6) 30
          (fun k => if k = .Industry then 10 else 0) (fun _ _ => 1) h
        = some (10 * 10 ^ 9 / ((10 ^ 6 : ℚ) / 10 ^ 6) / (720 * 14))) := by
  refine ⟨fun v area days => rfl, fun v area days => rfl, fun h => ?_⟩
  unfold vito.cellPipeline vito.disaggregate vito.kind
  rw [List.foldl_cons, List.foldl_cons, List.foldl_cons, List.foldl_cons,
    List.foldl_cons, List.foldl_nil]
  simp only [vito.maskMissing, reduceCtorEq, if_false, reduceIte]
  norm_num [vito.convertCell_some, vito.omul_some, vito.oadd_some_some,
    vito.convert_units, vito.var_dict]

namespace vito

/-- The disaggregation loop on all-present cells produces, at hour `h`, the
sum over the five sectors of (sector field × hourly factor). -/
lemma disaggregate_eq_sum (monthly : Sector → ℚ) (table : Sector → ℕ → ℚ)
    (h : ℕ) :
    disaggregate (fun k => some (monthly k)) table h
      = some ((kind.map (fun k => monthly k * table k h)).sum) := by
  unfold disaggregate kind
  rw [List.foldl_cons, List.foldl_cons, List.foldl_cons, List.foldl_cons,
    List.foldl_cons, List.foldl_nil]
  simp only [omul_some, oadd_some_some, List.map_cons, List.map_nil,
    List.sum_cons, List.sum_nil]
  norm_num
  ring

/-- A diurnal column whose mean over the 24 hours is 1 sums to 24. -/
lemma sum_24_of_mean_one {table : Sector → ℕ → ℚ}
    (hmean : ∀ k, (∑ i ∈ Finset.range 24, table k i) / 24 = 1) (k : Sector) :
    ∑ i ∈ Finset.range 24, table k i = 24 := by
  have h := hmean k
  field_simp at h
  linarith

end vito

/-- C2 (corrected): for every hour `h`, the disaggregated output equals the
sum over the five sectors of (converted monthly field × diurnal factor at
`h`); and when every sector's 24 diurnal factors have mean 1, the sum of the
24 hourly values at a cell equals 24 × the plain sum of the sector fields
(not the plain sum itself, since each of the 24 hours carries it once). -/
theorem vito.disaggregate_spec (monthly : vito.Sector → ℚ)
    (table : vito.Sector → ℕ → ℚ)
    (hmean : ∀ k, (∑ i ∈ Finset.range 24, table k i) / 24 = 1) :
    (∀ h, vito.disaggregate (fun k => some (monthly k)) table h
        = some ((vito.kind.map (fun k => monthly k * table k h)).sum))
    ∧ ∑ h ∈ Finset.range 24,
        (vito.disaggregate (fun k => some (monthly k)) table h).getD 0
      = 24 * vito.sector_total monthly := by
  refine ⟨vito.disaggregate_eq_sum monthly table, ?_⟩
  have hrw : ∑ h ∈ Finset.range 24,
      (vito.disaggregate (fun k => some (monthly k)) table h).getD 0
      = ∑ h ∈ Finset.range 24, (vito.kind.map (fun k => monthly k * table k h)).sum := by
    refine Finset.sum_congr rfl fun h _ => ?_
    rw [vito.disaggregate_eq_sum monthly table h]
    rfl
  rw [hrw]
  simp only [vito.kind, List.map_cons, List.map_nil, List.sum_cons, List.sum_nil,
    add_zero]
  rw [Finset.sum_add_distrib, Finset.sum_add_distrib, Finset.sum_add_distrib,
    Finset.sum_add_distrib]
  simp only [← Finset.mul_sum]
  rw [vito.sum_24_of_mean_one hmean, vito.sum_24_of_mean_one hmean,
    vito.sum_24_of_mean_one hmean, vito.sum_24_of_mean_one hmean,
    vito.sum_24_of_mean_one hmean]
  simp only [vito.sector_total, vito.kind, List.map_cons, List.map_nil,
    List.sum_cons, List.sum_nil]
  ring

/-- C2 counterexample: with every sector field equal to 1 and the identity
diurnal table (each sector's 24 factors have mean 1), the sum of the 24
hourly values is 120, while the plain sum of the sector fields is 5 — the
daily sum is 24 × the sector sum, not the sector sum itself. -/
theorem vito.disaggregate_day_sum_ne_sector_sum :
    (∀ k : vito.Sector, (∑ i ∈ Finset.range 24, (1 : ℚ)) / 24 = 1)
    ∧ ∑ h ∈ Finset.range 24,
        (vito.disaggregate (fun _ => some 1) (fun _ _ => 1) h).getD 0 = 120
    ∧ vito.sector_total (fun _ => 1) = 5
    ∧ (120 : ℚ) ≠ 5 := by
  refine ⟨fun k => by simp, ?_, by norm_num [vito.sector_total, vito.kind], by norm_num⟩
  have h5 : ∀ h : ℕ,
      (vito.disaggregate (fun _ => some (1 : ℚ)) (fun _ _ => 1) h).getD 0 = 5 := by
    intro h
    rw [vito.disaggregate_eq_sum (fun _ => 1) (fun _ _ => 1) h]
    norm_num [vito.kind]
  rw [Finset.sum_congr rfl fun h _ => h5 h]
  norm_num

/-- C2 witness: the corrected theorem applied to a concrete input — every
sector field equal to 2 with the identity diurnal table. -/
theorem vito.disaggregate_spec_witness :
    (∀ k : vito.Sector, (∑ i ∈ Finset.range 24, (1 : ℚ)) / 24 = 1)
    ∧ ∑ h ∈ Finset.range 24,
        (vito.disaggregate (fun _ => some (2 : ℚ)) (fun _ _ => 1) h).getD 0
      = 24 * vito.sector_total (fun _ => 2) :=
  ⟨fun _ => by simp,
   (vito.disaggregate_spec (fun _ => 2) (fun _ _ => 1) (fun _ => by simp)).2⟩

namespace vito

/-- The re-normalization of the hourly factor table in `get_ds`
(`table = table/(table.sum(dim='hour')/24)`): each sector's column is divided
by that column's 24-hour sum over 24. -/
def normalize_table (t : Sector → ℕ → ℚ) : Sector → ℕ → ℚ :=
  fun k h => t k h / ((∑ i ∈ Finset.range 24, t k i) / 24)

/-- Logging levels of the `logging` module as used by the script. -/
inductive LogLevel where
  | debug
  | info
  | warning
  | error
deriving DecidableEq

/-- The default hourly factor table used when `hourly_factor.csv` is missing
(`np.full((24, 5), 1)` in `get_ds`): every factor is 1. -/
def hourly_factor_default : Sector → ℕ → ℚ := fun _ _ => 1

/-- The `try/except OSError` around the hourly-factor table in `get_ds`: on a
successful load the raw table is re-normalized and nothing is logged about it;
when the file is missing, the all-ones table is used and the condition is
logged via `logging.info(... 'use 1 instead')`. -/
def load_table (ext : Option (Sector → ℕ → ℚ)) :
    (Sector → ℕ → ℚ) × Option LogLevel :=
  match ext with
  | some raw => (normalize_table raw, none)
  | none => (hourly_factor_default, some LogLevel.info)

end vito

/-- C4: after a successful load, each sector's 24 factors are divided by
(that sector's 24-hour sum / 24); whenever the sector's raw column sum is
nonzero, the normalized column has mean exactly 1, and scaling the sector's
raw column by any positive constant leaves its normalized column unchanged. -/
theorem vito.normalize_table_spec (t : vito.Sector → ℕ → ℚ) (k : vito.Sector)
    (hs : (∑ i ∈ Finset.range 24, t k i) ≠ 0) (c : ℚ) (hc : 0 < c) :
    (∀ h, vito.normalize_table t k h
        = t k h / ((∑ i ∈ Finset.range 24, t k i) / 24))
    ∧ (∑ h ∈ Finset.range 24, vito.normalize_table t k h) / 24 = 1
    ∧ (∀ h, vito.normalize_table
          (fun k' h' => if k' = k then c * t k' h' else t k' h') k h
        = vito.normalize_table t k h) := by
  refine ⟨fun h => rfl, ?_, fun h => ?_⟩
  · simp only [vito.normalize_table]
    rw [← Finset.sum_div]
    field_simp
  · unfold vito.normalize_table
    simp only [eq_self_iff_true, if_true]
    rw [← Finset.mul_sum]
    rw [show c * (∑ i ∈ Finset.range 24, t k i) / 24
        = c * ((∑ i ∈ Finset.range 24, t k i) / 24) from by ring]
    exact mul_div_mul_left _ _ (ne_of_gt hc)

/-- C4 witness: the normalization theorem applied to the constant raw table
with value 2 (column sum 48) at sector `Industry`, with scale factor 3. -/
theorem vito.normalize_table_spec_witness :
    ((∑ i ∈ Finset.range 24, (2 : ℚ)) ≠ 0) ∧ (0 : ℚ) < 3
    ∧ ((∀ h, vito.normalize_table (fun _ _ => 2) .Industry h
          = 2 / ((∑ i ∈ Finset.range 24, (2 : ℚ)) / 24))
      ∧ (∑ h ∈ Finset.range 24,
          vito.normalize_table (fun _ _ => 2) .Industry h) / 24 = 1
      ∧ (∀ h, vito.normalize_table
            (fun k' h' => if k' = vito.Sector.Industry then 3 * 2 else 2)
            .Industry h
          = vito.normalize_table (fun _ _ => 2) .Industry h)) := by
  have h1 : (∑ i ∈ Finset.range 24, (2 : ℚ)) ≠ 0 := by simp
  have h2 : (0 : ℚ) < 3 := by norm_num
  exact ⟨h1, h2, vito.normalize_table_spec (fun _ _ => 2) .Industry h1 3 h2⟩

/-- C9 counterexample: when the hourly factor table is missing, the script
reports the condition via `logging.info` — an info-level event, not the
warning-level event the claim states. -/
theorem vito.load_table_missing_level :
    (vito.load_table none).2 = some vito.LogLevel.info
    ∧ vito.LogLevel.info ≠ vito.LogLevel.warning
    ∧ (vito.load_table none).2 ≠ some vito.LogLevel.warning :=
  ⟨rfl, by decide, by rw [show (vito.load_table none).2 = some vito.LogLevel.info from rfl]; decide⟩

/-- C9 (corrected): when the external hourly factor table is unavailable,
loading does not fail: it returns the identity table (all 24 × 5 factors
equal 1, so every sector's mean is 1), and the condition is reported as a
recoverable info-level log event (the script uses `logging.info`), not an
error. -/
theorem vito.load_table_default_spec :
    (∀ k h, (vito.load_table none).1 k h = 1)
    ∧ (∀ k : vito.Sector,
        (∑ h ∈ Finset.range 24, (vito.load_table none).1 k h) / 24 = 1)
    ∧ (vito.load_table none).2 = some vito.LogLevel.info
    ∧ (vito.load_table none).2 ≠ some vito.LogLevel.error := by
  refine ⟨fun k h => rfl, fun k => ?_, rfl, ?_⟩
  · rw [show (∑ h ∈ Finset.range 24, (vito.load_table none).1 k h)
        = ∑ h ∈ Finset.range 24, (1 : ℚ) from rfl]
    simp
  · rw [show (vito.load_table none).2 = some vito.LogLevel.info from rfl]
    decide

namespace vito

/-- Masked addition is absorbing: once the running sum is absent, or some
summed term is absent, the fold over the sector list is absent. -/
lemma foldl_oadd_eq_none (f : Sector → Option ℚ) (g : Sector → ℚ) :
    ∀ (l : List Sector) (acc : Option ℚ),
      (acc = none ∨ ∃ k ∈ l, f k = none) →
      l.foldl (fun a k => oadd a (omul (f k) (g k))) acc = none
  | [], acc, hyp => by
    rcases hyp with h | ⟨k, hk, _⟩
    · simpa using h
    · cases hk
  | k₀ :: l, acc, hyp => by
    rcases hyp with h | ⟨k, hk, hfk⟩
    · subst h
      exact foldl_oadd_eq_none f g l _ (Or.inl (oadd_none_left _))
    · rcases List.mem_cons.mp hk with h | h
      · subst h
        rw [List.foldl_cons, hfk, omul_none, oadd_none_right]
        exact foldl_oadd_eq_none f g l _ (Or.inl rfl)
      · exact foldl_oadd_eq_none f g l _ (Or.inr ⟨k, h, hfk⟩)

/-- Every sector is iterated over by the disaggregation loop. -/
lemma mem_kind (k : Sector) : k ∈ kind := by
  cases k <;> decide

/-- Modelled from the spec: the resampling stage itself (the `pyresample`
library calls in `resample_WRF`, external to this repository) is where the
declared fill value 0 is applied — a cell with no data resolves to 0 there
and nowhere earlier. -/
def resampleFill (v : Option ℚ) : ℚ :=
  v.getD 0

end vito

/-- C5: a source cell equal to the declared missing-value sentinel becomes
absent before unit conversion; absence propagates through the unit conversion
and through the hourly disaggregation (an absent summed sector makes the
hour/cell absent, never silently 0); the absent cell resolves to the declared
fill value 0 only at the resampling stage. -/
theorem vito.missing_value_propagation (sentinel : ℚ) (raw : vito.Sector → ℚ)
    (k : vito.Sector) (hk : raw k = sentinel) (name : vito.Species)
    (area : ℚ) (days : ℕ) (table : vito.Sector → ℕ → ℚ) (h : ℕ) :
    vito.maskMissing sentinel (raw k) = none
    ∧ (∀ v, v ≠ sentinel → vito.maskMissing sentinel v = some v)
    ∧ vito.convertCell name area days none = none
    ∧ vito.cellPipeline sentinel name area days raw table h = none
    ∧ (∀ x : ℚ, vito.cellPipeline sentinel name area days raw table h ≠ some x)
    ∧ vito.resampleFill (vito.cellPipeline sentinel name area days raw table h) = 0 := by
  have hmask : vito.maskMissing sentinel (raw k) = none := by
    rw [vito.maskMissing, if_pos hk]
  have hpipe : vito.cellPipeline sentinel name area days raw table h = none := by
    unfold vito.cellPipeline vito.disaggregate
    exact vito.foldl_oadd_eq_none
      (fun k' => vito.convertCell name area days (vito.maskMissing sentinel (raw k')))
      (fun k' => table k' h) vito.kind (some 0)
      (Or.inr ⟨k, vito.mem_kind k, by
        show vito.convertCell name area days (vito.maskMissing sentinel (raw k)) = none
        rw [hmask, vito.convertCell_none]⟩)
  refine ⟨hmask, fun v hv => by rw [vito.maskMissing, if_neg hv], rfl, hpipe,
    fun x => by rw [hpipe]; exact fun hx => Option.noConfusion hx, by rw [hpipe]; rfl⟩

/-- C5 witness: the propagation theorem at a concrete input — every sector
cell holds the sentinel −999, species NO, unit area, a 30-day month, the
identity table, hour 0. -/
theorem vito.missing_value_propagation_witness :
    ((fun _ : vito.Sector => (-999 : ℚ)) .Industry = -999)
    ∧ vito.cellPipeline (-999) .E_NO 1 30 (fun _ => -999) (fun _ _ => 1) 0 = none
    ∧ vito.resampleFill
        (vito.cellPipeline (-999) .E_NO 1 30 (fun _ => -999) (fun _ _ => 1) 0) = 0 := by
  have h := vito.missing_value_propagation (-999) (fun _ => -999) .Industry rfl
    .E_NO 1 30 (fun _ _ => 1) 0
  exact ⟨rfl, h.2.2.2.1, h.2.2.2.2.2⟩

namespace vito

/-- The first half-day window of `replace_var` (`np.arange(12)`):
hour indices 0,…,11 for `wrfchemi_00z`. -/
def windowA : List ℕ := List.range 12

/-- The second half-day window of `replace_var` (`np.arange(12, 24, 1)`):
hour indices 12,…,23 for `wrfchemi_12z`. -/
def windowB : List ℕ := (List.range 12).map (· + 12)

/-- The window index pair `tindex = [np.arange(12), np.arange(12, 24, 1)]` in
`replace_var`. -/
def tindex : List (List ℕ) := [windowA, windowB]

/-- The xarray integer selection along the hour axis
(`...isel(Time=tindex[index])`): picks the listed hour indices, failing if
any index is out of bounds. -/
def iselTime (field : List ℚ) : List ℕ → Option (List ℚ)
  | [] => some []
  | i :: idx =>
    match field[i]?, iselTime field idx with
    | some v, some rest => some (v :: rest)
    | _, _ => none

/-- Selecting in-bounds indices yields exactly the values at those indices. -/
lemma iselTime_eq_map (l : List ℚ) :
    ∀ idx : List ℕ, (∀ i ∈ idx, i < l.length) →
      iselTime l idx = some (idx.map (fun i => l.getD i 0))
  | [], _ => rfl
  | a :: idx, hyp => by
    have ha : a < l.length := hyp a (List.mem_cons_self a idx)
    have hrest := iselTime_eq_map l idx (fun i hi => hyp i (List.mem_cons_of_mem a hi))
    rw [iselTime, hrest, List.getElem?_eq_getElem ha]
    simp [List.getD_eq_getElem?_getD, List.getElem?_eq_getElem ha]

/-- Selecting any out-of-bounds index fails. -/
lemma iselTime_eq_none (l : List ℚ) :
    ∀ idx : List ℕ, (∃ i ∈ idx, l.length ≤ i) → iselTime l idx = none
  | a :: idx, ⟨i, hi, hlen⟩ => by
    rw [iselTime]
    rcases List.mem_cons.mp hi with h | h
    · subst h
      rw [List.getElem?_eq_none hlen]
    · rw [iselTime_eq_none l idx ⟨i, h, hlen⟩]
      cases l[a]? <;> rfl

/-- The split of a resampled field into the two half-day output windows
performed by `replace_var`: select hours 0–11 and hours 12–23. -/
def split (field : List ℚ) : Option (List ℚ × List ℚ) :=
  match iselTime field windowA, iselTime field windowB with
  | some a, some b => some (a, b)
  | _, _ => none

end vito

/-- C6 (corrected): on a field with at least 24 hours, the split yields
window A holding exactly hours 0–11 and window B exactly hours 12–23 — the
index sets are disjoint and together cover 0–23; on a field with fewer than
24 hours the split fails (hour 23 is selected out of bounds).  A field
longer than 24 hours does NOT fail: the indexing simply ignores the extra
hours. -/
theorem vito.split_spec (field : List ℚ) :
    (24 ≤ field.length →
      vito.split field
        = some (vito.windowA.map (fun i => field.getD i 0),
                vito.windowB.map (fun i => field.getD i 0)))
    ∧ (field.length < 24 → vito.split field = none)
    ∧ vito.windowA ++ vito.windowB = List.range 24
    ∧ (∀ i, ¬(i ∈ vito.windowA ∧ i ∈ vito.windowB)) := by
  refine ⟨fun hlen => ?_, fun hlen => ?_, rfl, fun i ⟨hA, hB⟩ => ?_⟩
  · have hA : ∀ i ∈ vito.windowA, i < field.length := by
      intro i hi
      have : i < 12 := List.mem_range.mp hi
      omega
    have hB : ∀ i ∈ vito.windowB, i < field.length := by
      intro i hi
      rcases List.mem_map.mp hi with ⟨j, hj, rfl⟩
      have : j < 12 := List.mem_range.mp hj
      omega
    rw [vito.split, vito.iselTime_eq_map field vito.windowA hA,
      vito.iselTime_eq_map field vito.windowB hB]
  · have h23 : (23 : ℕ) ∈ vito.windowB := by decide
    rw [vito.split, vito.iselTime_eq_none field vito.windowB ⟨23, h23, by omega⟩]
    cases vito.iselTime field vito.windowA <;> rfl
  · have h1 : i < 12 := List.mem_range.mp hA
    rcases List.mem_map.mp hB with ⟨j, _, rfl⟩
    omega

/-- C6 counterexample: a 25-hour field does not make the split fail — the
code indexes hours 0–23 and ignores the extra hour, so there is no failure
for lengths other than 24 (only for lengths below 24). -/
theorem vito.split_succeeds_on_25_hours :
    (List.replicate 25 (0 : ℚ)).length ≠ 24
    ∧ vito.split (List.replicate 25 (0 : ℚ))
        = some (List.replicate 12 0, List.replicate 12 0) := by
  constructor
  · simp
  · rfl

/-- C6 witness: the split theorem applied to a 24-hour field (both windows
produced) and to a 5-hour field (split fails). -/
theorem vito.split_spec_witness :
    (24 ≤ (List.replicate 24 (1 : ℚ)).length
      ∧ vito.split (List.replicate 24 (1 : ℚ))
          = some (vito.windowA.map (fun i => (List.replicate 24 (1 : ℚ)).getD i 0),
                  vito.windowB.map (fun i => (List.replicate 24 (1 : ℚ)).getD i 0)))
    ∧ ((List.replicate 5 (1 : ℚ)).length < 24
      ∧ vito.split (List.replicate 5 (1 : ℚ)) = none) :=
  ⟨⟨by simp, (vito.split_spec (List.replicate 24 1)).1 (by simp)⟩,
   ⟨by simp, (vito.split_spec (List.replicate 5 1)).2.1 (by simp)⟩⟩

namespace vito

/-- Failure modes of the merge step in `replace_var`.  When the baseline
`wrfchemi*` file does not exist the script produces no output dataset for
that window (it asks the user to run `mozcart.py` first); the pipeline never
creates a baseline from scratch. -/
inductive MergeError where
  | BaselineMissing
deriving DecidableEq

/-- The per-window merge of `replace_var`: if the baseline dataset exists,
overwrite exactly its `E_NO` and `E_SO2` variables with the pipeline's
resampled values at the window's hour indices
(`ds['E_NO'] = self.chemi['E_NO'].isel(Time=tindex[index])`, likewise
`E_SO2`), leaving every other variable as it was; if the baseline does not
exist, no dataset is produced. -/
def replace_species (chemi : String → List ℚ) (idx : List ℕ)
    (baseline : Option (String → List ℚ)) :
    Except MergeError (String → List ℚ) :=
  match baseline with
  | none => Except.error MergeError.BaselineMissing
  | some ds => Except.ok fun v =>
      if v = "E_NO" then idx.map (fun i => (chemi ("E_NO")).getD i 0)
      else if v = "E_SO2" then idx.map (fun i => (chemi ("E_SO2")).getD i 0)
      else ds v

end vito

/-- C7: merging a window into an existing baseline overwrites only the
species this pipeline produces (`E_NO` and `E_SO2`), with the window's
values at the window's hour indices, and passes every other baseline
variable through unchanged; when the baseline dataset does not exist the
merge fails (the pipeline never creates a baseline from scratch). -/
theorem vito.replace_species_frame (chemi ds : String → List ℚ)
    (idx : List ℕ) (v : String) (hv1 : v ≠ "E_NO") (hv2 : v ≠ "E_SO2") :
    (∃ out, vito.replace_species chemi idx (some ds) = Except.ok out
      ∧ out ("E_NO") = idx.map (fun i => (chemi ("E_NO")).getD i 0)
      ∧ out ("E_SO2") = idx.map (fun i => (chemi ("E_SO2")).getD i 0)
      ∧ out v = ds v)
    ∧ vito.replace_species chemi idx none
        = Except.error vito.MergeError.BaselineMissing := by
  refine ⟨⟨_, rfl, ?_, ?_, ?_⟩, rfl⟩
  · rw [if_pos rfl]
  · rw [if_neg (by decide), if_pos rfl]
  · rw [if_neg hv1, if_neg hv2]

/-- C7 witness: the merge theorem at a concrete input — the untouched
baseline variable `Times` keeps its value across the merge of window A. -/
theorem vito.replace_species_frame_witness :
    ("Times" ≠ "E_NO") ∧ ("Times" ≠ "E_SO2")
    ∧ ((∃ out, vito.replace_species (fun _ => [3]) [0] (some (fun _ => [7]))
          = Except.ok out
        ∧ out ("E_NO") = [0].map (fun i => (((fun _ => [3]) : String → List ℚ) ("E_NO")).getD i 0)
        ∧ out ("E_SO2") = [0].map (fun i => (((fun _ => [3]) : String → List ℚ) ("E_SO2")).getD i 0)
        ∧ out ("Times") = ((fun _ => [7]) : String → List ℚ) ("Times"))
      ∧ vito.replace_species (fun _ => [3]) [0] none
          = Except.error vito.MergeError.BaselineMissing) :=
  ⟨by decide, by decide,
   vito.replace_species_frame (fun _ => [3]) (fun _ => [7]) [0] "Times"
     (by decide) (by decide)⟩

namespace vito

/-- The time-stepping generator `perdelta` of the `vito` class: starting at
`start`, yield the current time and advance by `delta` while the current
time does not exceed `end`.  Times are in hours.  (The source's `while` loop
terminates only for a positive step; the script always passes a one-hour
step, and the guard `0 < delta` records that.) -/
def perdelta (start end_ delta : ℤ) : List ℤ :=
  if h : start ≤ end_ ∧ 0 < delta then
    start :: perdelta (start + delta) end_ delta
  else []
  termination_by (end_ + 1 - start).toNat
  decreasing_by
    simp_wf
    omega

/-- The time/resample stage `resample_WRF (st, et, delta)`: the `Times`
variable is built from `perdelta(st, et, timedelta(hours=1))` — a fixed
one-hour step regardless of the `delta` argument — and each species field is
resampled hour-slice by hour-slice from `self.emi` alone.  The external
`pyresample` call is abstracted as `resample_slice`. -/
def resample_WRF (emi : List (List ℚ)) (resample_slice : List ℚ → List ℚ)
    (st et delta : ℤ) : List ℤ × List (List ℚ) :=
  (perdelta st et 1, emi.map resample_slice)

end vito

/-- C10: the pipeline's output is independent of the `delta` argument — for
any two values of `delta` with all other inputs equal, `resample_WRF`
produces the identical Times list and identical resampled fields, because
the hourly iteration always uses the fixed one-hour step. -/
theorem vito.resample_WRF_delta_independent (emi : List (List ℚ))
    (resample_slice : List ℚ → List ℚ) (st et d₁ d₂ : ℤ) :
    vito.resample_WRF emi resample_slice st et d₁
      = vito.resample_WRF emi resample_slice st et d₂
    ∧ (vito.resample_WRF emi resample_slice st et d₁).1
      = vito.perdelta st et 1 :=
  ⟨rfl, rfl⟩

namespace vito

/-- The constant `EARTH_RADIUS = 6370000.0` of `calc_area` (metres). -/
noncomputable def EARTH_RADIUS : ℝ := 6370000

/-- The constant `Rad_per_Deg = np.pi / 180.0` of `calc_area`. -/
noncomputable def Rad_per_Deg : ℝ := Real.pi / 180

/-- One spherical-cap area as computed in `calc_area`:
`cap_ht = EARTH_RADIUS * (1 - np.sin(ylat * Rad_per_Deg))` followed by
`cap_area = 2 * np.pi * EARTH_RADIUS * cap_ht`. -/
noncomputable def cap_area (lat : ℝ) : ℝ :=
  2 * Real.pi * EARTH_RADIUS * (EARTH_RADIUS * (1 - Real.sin (lat * Rad_per_Deg)))

/-- The loop body of `calc_area` for cell `(j, i)`:
`area[j, i] = abs(cap1_area - cap2_area) * abs(xlon1 - xlon2) / 360.0`, where
the two caps are bounded by the cell's latitude edges `latb j`, `latb (j+1)`
and the longitudes are the cell's edges `lonb i`, `lonb (i+1)`. -/
noncomputable def calc_area (latb lonb : ℕ → ℝ) (j i : ℕ) : ℝ :=
  |cap_area (latb j) - cap_area (latb (j + 1))| * |lonb i - lonb (i + 1)| / 360

/-- The sine is strictly monotone on latitudes between −90° and 90° after the
degree-to-radian conversion. -/
lemma sin_deg_lt {a b : ℝ} (ha : a ∈ Set.Icc (-90 : ℝ) 90)
    (hb : b ∈ Set.Icc (-90 : ℝ) 90) (hab : a < b) :
    Real.sin (a * Rad_per_Deg) < Real.sin (b * Rad_per_Deg) := by
  have hpi := Real.pi_pos
  have hd : (0 : ℝ) < Rad_per_Deg := by rw [Rad_per_Deg]; positivity
  apply Real.strictMonoOn_sin
  · constructor
    · rw [Rad_per_Deg]; nlinarith [ha.1]
    · rw [Rad_per_Deg]; nlinarith [ha.2]
  · constructor
    · rw [Rad_per_Deg]; nlinarith [hb.1]
    · rw [Rad_per_Deg]; nlinarith [hb.2]
  · exact mul_lt_mul_of_pos_right hab hd

/-- The spherical-cap area is strictly decreasing in the latitude of its
bounding parallel (within −90°…90°). -/
lemma cap_area_strict {a b : ℝ} (ha : a ∈ Set.Icc (-90 : ℝ) 90)
    (hb : b ∈ Set.Icc (-90 : ℝ) 90) (hab : a < b) :
    cap_area b < cap_area a := by
  have hsin := sin_deg_lt ha hb hab
  have hR : (0 : ℝ) < EARTH_RADIUS := by rw [EARTH_RADIUS]; norm_num
  have h2 : (0 : ℝ) < 2 * Real.pi * EARTH_RADIUS := by
    have := Real.pi_pos
    positivity
  unfold cap_area
  have h1 : EARTH_RADIUS * (1 - Real.sin (b * Rad_per_Deg))
      < EARTH_RADIUS * (1 - Real.sin (a * Rad_per_Deg)) := by
    apply mul_lt_mul_of_pos_left _ hR
    linarith
  exact mul_lt_mul_of_pos_left h1 h2

/-- Latitude boundaries used by the C3 witness: 90° north edge, −90° south
edge (one row). -/
def w_latb : ℕ → ℝ := fun j => if j = 0 then 90 else -90

/-- Longitude boundaries used by the C3 witness: 0° west edge, 360° east
edge (one column). -/
def w_lonb : ℕ → ℝ := fun i => if i = 0 then 0 else 360

end vito

/-- C3: each computed cell area equals the absolute difference of the two
spherical-cap areas 2πR²(1 − sin(lat·π/180)) at the cell's latitude edges
times |Δlon|/360; and for boundary arrays forming a valid partition of a
latitude band (latitudes strictly decreasing from north to south within
±90°, longitudes strictly increasing), every computed area is positive and
the areas sum to the analytic area of the band. -/
theorem vito.calc_area_partition (latb lonb : ℕ → ℝ) (J I : ℕ)
    (hlat_range : ∀ j ≤ J, latb j ∈ Set.Icc (-90 : ℝ) 90)
    (hlat_mono : ∀ j < J, latb (j + 1) < latb j)
    (hlon_mono : ∀ i < I, lonb i < lonb (i + 1)) :
    (∀ j i, vito.calc_area latb lonb j i
        = |2 * Real.pi * vito.EARTH_RADIUS ^ 2
              * (1 - Real.sin (latb j * (Real.pi / 180)))
            - 2 * Real.pi * vito.EARTH_RADIUS ^ 2
              * (1 - Real.sin (latb (j + 1) * (Real.pi / 180)))|
          * |lonb i - lonb (i + 1)| / 360)
    ∧ (∀ j < J, ∀ i < I, 0 < vito.calc_area latb lonb j i)
    ∧ ∑ j ∈ Finset.range J, ∑ i ∈ Finset.range I, vito.calc_area latb lonb j i
        = 2 * Real.pi * vito.EARTH_RADIUS ^ 2
            * (Real.sin (latb 0 * (Real.pi / 180))
              - Real.sin (latb J * (Real.pi / 180)))
            * (lonb I - lonb 0) / 360 := by
  have hcapform : ∀ x : ℝ,
      vito.cap_area x
        = 2 * Real.pi * vito.EARTH_RADIUS ^ 2 * (1 - Real.sin (x * (Real.pi / 180))) := by
    intro x
    unfold vito.cap_area vito.Rad_per_Deg
    ring
  have hcap : ∀ j < J, vito.cap_area (latb j) < vito.cap_area (latb (j + 1)) := by
    intro j hj
    exact vito.cap_area_strict (hlat_range (j + 1) (by omega)) (hlat_range j (by omega))
      (hlat_mono j hj)
  refine ⟨fun j i => ?_, fun j hj i hi => ?_, ?_⟩
  · rw [vito.calc_area, hcapform, hcapform]
  · rw [vito.calc_area]
    apply div_pos _ (by norm_num)
    apply mul_pos
    · exact abs_pos.mpr (sub_ne_zero.mpr (ne_of_lt (hcap j hj)))
    · exact abs_pos.mpr (sub_ne_zero.mpr (ne_of_lt (hlon_mono i hi)))
  · have hterm : ∀ j ∈ Finset.range J, ∀ i ∈ Finset.range I,
        vito.calc_area latb lonb j i
          = (vito.cap_area (latb (j + 1)) - vito.cap_area (latb j))
            * (lonb (i + 1) - lonb i) / 360 := by
      intro j hj i hi
      rw [vito.calc_area, abs_sub_comm,
        abs_of_pos (sub_pos.mpr (hcap j (Finset.mem_range.mp hj))),
        abs_sub_comm, abs_of_pos (sub_pos.mpr (hlon_mono i (Finset.mem_range.mp hi)))]
    rw [Finset.sum_congr rfl fun j hj => Finset.sum_congr rfl fun i hi => hterm j hj i hi]
    have hinner : ∀ j : ℕ,
        (∑ i ∈ Finset.range I,
          (vito.cap_area (latb (j + 1)) - vito.cap_area (latb j))
            * (lonb (i + 1) - lonb i) / 360)
          = (vito.cap_area (latb (j + 1)) - vito.cap_area (latb j))
            * (∑ i ∈ Finset.range I, (lonb (i + 1) - lonb i)) / 360 := by
      intro j
      rw [← Finset.sum_div, ← Finset.mul_sum]
    rw [Finset.sum_congr rfl fun j _ => hinner j, ← Finset.sum_div, ← Finset.sum_mul,
      Finset.sum_range_sub (fun j => vito.cap_area (latb j)),
      Finset.sum_range_sub (fun i => lonb i)]
    rw [hcapform, hcapform]
    ring

/-- C3 witness: the partition theorem applied to the one-cell partition of
the entire sphere (latitude edges 90°, −90°; longitude edges 0°, 360°). -/
theorem vito.calc_area_partition_witness :
    (∀ j ≤ 1, vito.w_latb j ∈ Set.Icc (-90 : ℝ) 90)
    ∧ (∀ j < 1, vito.w_latb (j + 1) < vito.w_latb j)
    ∧ (∀ i < 1, vito.w_lonb i < vito.w_lonb (i + 1))
    ∧ 0 < vito.calc_area vito.w_latb vito.w_lonb 0 0
    ∧ ∑ j ∈ Finset.range 1, ∑ i ∈ Finset.range 1, vito.calc_area vito.w_latb vito.w_lonb j i
        = 2 * Real.pi * vito.EARTH_RADIUS ^ 2
            * (Real.sin (vito.w_latb 0 * (Real.pi / 180))
              - Real.sin (vito.w_latb 1 * (Real.pi / 180)))
            * (vito.w_lonb 1 - vito.w_lonb 0) / 360 := by
  have h1 : ∀ j ≤ 1, vito.w_latb j ∈ Set.Icc (-90 : ℝ) 90 := by
    intro j _
    by_cases h : j = 0 <;> simp [vito.w_latb, h, Set.mem_Icc]
  have h2 : ∀ j < 1, vito.w_latb (j + 1) < vito.w_latb j := by
    intro j hj
    interval_cases j
    norm_num [vito.w_latb]
  have h3 : ∀ i < 1, vito.w_lonb i < vito.w_lonb (i + 1) := by
    intro i hi
    interval_cases i
    norm_num [vito.w_lonb]
  have h := vito.calc_area_partition vito.w_latb vito.w_lonb 1 1 h1 h2 h3
  exact ⟨h1, h2, h3, h.2.1 0 (by omega) 0 (by omega), h.2.2⟩

/-- C8 counterexample: `calc_area` contains no error path — on a fully
degenerate input (all latitude edges equal, all longitude edges equal) it
still returns an area field, with value 0 for the degenerate cell, instead
of reporting an error. -/
theorem vito.calc_area_no_error_on_degenerate :
    vito.calc_area (fun _ => 0) (fun _ => 0) 0 0 = 0
    ∧ vito.calc_area (fun _ => 0) (fun _ => 5) 0 0 = 0 := by
  constructor <;> (unfold vito.calc_area; simp)

/-- C8 (corrected): cell-area computation never fails — `calc_area` has no
validity check, and a degenerate cell (equal longitude bounds or equal
latitude edges) simply gets area 0 in the returned field. -/
theorem vito.calc_area_degenerate (latb lonb : ℕ → ℝ) (j i : ℕ)
    (h : lonb i = lonb (i + 1) ∨ latb j = latb (j + 1)) :
    vito.calc_area latb lonb j i = 0 := by
  unfold vito.calc_area
  rcases h with h | h <;> rw [h] <;> simp

/-- C8 witness: the degenerate-cell theorem applied to constant longitude
bounds. -/
theorem vito.calc_area_degenerate_witness :
    ((fun _ : ℕ => (3 : ℝ)) 0 = (fun _ : ℕ => (3 : ℝ)) (0 + 1))
    ∧ vito.calc_area (fun _ => 1) (fun _ => 3) 0 0 = 0 :=
  ⟨rfl, vito.calc_area_degenerate (fun _ => 1) (fun _ => 3) 0 0 (Or.inl rfl)⟩
